import Mathlib

set_option maxHeartbeats 1000000
set_option maxRecDepth 100000

/-!
Shallow embedding of the process-schema-to-Mermaid compiler and of its
schema validator (source file: the `mermaidGenerator` module of the
repository), together with theorems checking the specification claims.

Modelling conventions, matching the observable JavaScript semantics of the
source:
* optional or missing string fields are modelled as `String` where the empty
  string stands for a missing or empty value (both are falsy in JavaScript,
  and the source only ever tests such fields for truthiness);
* a collection field of the JSON document is a `JSArr`, which distinguishes
  a real array from `undefined`/`null` and from any other runtime value;
* code that can raise a JavaScript exception is modelled in
  `Except String`, with the fixed payload "TypeError" for every dynamic
  type error (calling an array method on a non-array value).
-/

namespace MermaidGen

/-- An actor of the process document.  The optional `department` field is a
`String` where the empty string models an absent or empty department,
matching the truthiness test of the source. -/
structure Actor where
  id : String
  name : String
  department : String
deriving DecidableEq, Repr

/-- A process step.  The `type` field is kept as a raw `String` because the
source inspects it dynamically (the validator checks membership in the four
allowed values and the generator has a default branch for any other value). -/
structure ProcessStep where
  id : String
  type : String
  label : String
  actorId : String
  controls : List String
  risks : List String
deriving DecidableEq, Repr

/-- A flow edge.  `from_` and `to_` model the source fields `from` and `to`
(both Lean keywords); `label` is a `String` where the empty string models an
absent or empty label, matching the truthiness test of the source. -/
structure Flow where
  from_ : String
  to_ : String
  label : String
  type : String
deriving DecidableEq, Repr

/-- The runtime value found in a collection field of the document.
`nullish` models `undefined` or `null` (falsy, and optional chaining skips
it), `nonArr truthy` models any other non-array value (calling an array
method on it raises a TypeError; the flag records its JavaScript
truthiness), and `arr l` models a JavaScript array, which is always truthy. -/
inductive JSArr (α : Type) where
  | nullish
  | nonArr (truthy : Bool)
  | arr (l : List α)
deriving DecidableEq, Repr

/-- The process document as the generator and the validator receive it.  The
`decisions`, `controls` and `risks` collections of the full schema are never
read by either function and are therefore not part of the embedding. -/
structure ProcessSchema where
  processName : String
  processId : String
  actors : JSArr Actor
  steps : JSArr ProcessStep
  flows : JSArr Flow
deriving DecidableEq, Repr

/-- JavaScript truthiness of a collection field. -/
def JSArr.truthy {α : Type} : JSArr α → Bool
  | .nullish => false
  | .nonArr t => t
  | .arr _ => true

/-- `Array.isArray` on a collection field. -/
def JSArr.isArray {α : Type} : JSArr α → Bool
  | .arr _ => true
  | _ => false

/-- Calling an array method (`forEach`, `find`, `map`, `filter`) directly on
the value: succeeds only on arrays, otherwise raises a TypeError. -/
def jsIter {α : Type} : JSArr α → Except String (List α)
  | .arr l => .ok l
  | _ => .error "TypeError"

/-- Optional-chained iteration, `v?.forEach(...)` and
`v?.map(...) || []`: a nullish value is skipped and behaves like the empty
collection, while a non-array non-nullish value raises a TypeError. -/
def jsIterOpt {α : Type} : JSArr α → Except String (List α)
  | .arr l => .ok l
  | .nullish => .ok []
  | .nonArr _ => .error "TypeError"

/-- The reserved Mermaid keywords guarded against by the source. -/
def RESERVED_KEYWORDS : List String :=
  ["start", "end", "subgraph", "graph", "flowchart", "direction",
   "class", "style", "click", "call"]

/-- A character matched by the regex class `[a-zA-Z0-9_-]`. -/
def isAllowedChar (c : Char) : Bool :=
  ('a' ≤ c && c ≤ 'z') || ('A' ≤ c && c ≤ 'Z') || ('0' ≤ c && c ≤ '9')
    || c == '_' || c == '-'

/-- Lowercasing as used for the keyword comparison.  The compared strings
are ASCII because every character outside `[a-zA-Z0-9_-]` has already been
replaced, so the character-wise `Char.toLower` agrees with the JavaScript
`toLowerCase`. -/
def toLowerStr (s : String) : String :=
  ⟨s.data.map Char.toLower⟩

/-- The character-replacement phase of `sanitizeId`:
`id.replace(/[^a-zA-Z0-9_-]/g, "_")`. -/
def replaceDisallowed (s : String) : String :=
  ⟨s.data.map (fun c => if isAllowedChar c then c else '_')⟩

/-- `sanitizeId` from the source: replace every character outside
`[a-zA-Z0-9_-]` with an underscore, then prefix `node_` when the result is,
case-insensitively, a reserved Mermaid keyword. -/
def sanitizeId (id : String) : String :=
  let sanitized := replaceDisallowed id
  if RESERVED_KEYWORDS.contains (toLowerStr sanitized) then
    "node_" ++ sanitized
  else
    sanitized

/-- Global single-character replacement: the effect of
`s.replace(re, r)` for a one-character global pattern `re`. -/
def replaceAllChar (s : String) (c : Char) (r : String) : String :=
  ⟨s.data.flatMap (fun ch => if ch == c then r.data else [ch])⟩

/-- `escapeLabel` from the source: replace every double quote with
`#quot;`, then every newline with `<br/>`. -/
def escapeLabel (label : String) : String :=
  replaceAllChar (replaceAllChar label '"' "#quot;") '\n' "<br/>"

/-- `buildNodeDefinition`: one node statement for a step, the shape chosen
by the step type, followed by CSS class tags when controls or risks are
present. -/
def buildNodeDefinition (step : ProcessStep) : String :=
  let nodeId := sanitizeId step.id
  let label := escapeLabel step.label
  let shape :=
    if step.type == "start" then nodeId ++ "((" ++ label ++ "))"
    else if step.type == "end" then nodeId ++ "((" ++ label ++ "))"
    else if step.type == "decision" then nodeId ++ "\x7b" ++ label ++ "\x7d"
    else nodeId ++ "[\"" ++ label ++ "\"]"
  let cssClasses : List String :=
    (if step.controls.length > 0 then ["controlStyle"] else [])
      ++ (if step.risks.length > 0 then ["riskStyle"] else [])
  if cssClasses.length > 0 then
    shape ++ ":::" ++ String.intercalate ":" cssClasses
  else
    shape

/-- `buildStyles`: the two fixed style-class definitions. -/
def buildStyles : List String :=
  ["    classDef controlStyle fill:#E3F2FD,stroke:#1976D2,stroke-width:2px",
   "    classDef riskStyle fill:#FFF3E0,stroke:#F57C00,stroke-width:2px"]

/-- One emitted edge line per flow: labeled exactly when the label is
non-empty (truthy); the flow `type` field is never consulted. -/
def flowLine (flow : Flow) : String :=
  if flow.label != "" then
    "    " ++ sanitizeId flow.from_ ++ " -->|" ++ escapeLabel flow.label ++ "| "
      ++ sanitizeId flow.to_
  else
    "    " ++ sanitizeId flow.from_ ++ " --> " ++ sanitizeId flow.to_

/-- `buildFlows`: a falsy or empty flow collection yields no edge lines, a
truthy non-array raises a TypeError when iterated, and an array yields one
edge line per flow in array order. -/
def buildFlows (json : ProcessSchema) : Except String (List String) :=
  match json.flows with
  | .nullish => .ok []
  | .nonArr false => .ok []
  | .nonArr true => .error "TypeError"
  | .arr l => .ok (l.map flowLine)

/-- `buildFlowGraph`: an insertion-ordered adjacency list from a step id to
the ids of its flow successors. -/
def buildFlowGraph (flows : List Flow) : List (String × List String) :=
  flows.foldl
    (fun g f =>
      if g.any (fun p => p.1 == f.from_) then
        g.map (fun p => if p.1 == f.from_ then (p.1, p.2 ++ [f.to_]) else p)
      else
        g ++ [(f.from_, [f.to_])])
    []

/-- `flowGraph.get(stepId) || []`. -/
def graphGet (g : List (String × List String)) (x : String) : List String :=
  match g.find? (fun p => p.1 == x) with
  | some p => p.2
  | none => []

/-- The mutable state of `getActorOrderByFlow`: the actor order built so
far, the ids of the actors already appended, and the ids of the steps
already visited. -/
structure TravState where
  actorOrder : List Actor
  seenActors : List String
  visitedSteps : List String
deriving DecidableEq, Repr

theorem length_filter_le_of {α : Type} (l : List α) (p q : α → Bool)
    (h : ∀ a, q a = true → p a = true) :
    (l.filter q).length ≤ (l.filter p).length := by
  induction l with
  | nil => simp
  | cons b bs ih =>
    rw [List.filter_cons, List.filter_cons]
    by_cases hq : q b = true
    · rw [if_pos hq, if_pos (h b hq)]
      simp only [List.length_cons]
      omega
    · rw [if_neg hq]
      by_cases hp : p b = true
      · rw [if_pos hp]
        simp only [List.length_cons]
        omega
      · rw [if_neg hp]
        exact ih

theorem length_filter_lt_of {α : Type} (l : List α) (p q : α → Bool)
    (h : ∀ a, q a = true → p a = true) (a : α) (ha : a ∈ l)
    (hpa : p a = true) (hqa : q a = false) :
    (l.filter q).length < (l.filter p).length := by
  induction l with
  | nil => cases ha
  | cons b bs ih =>
    rw [List.filter_cons, List.filter_cons]
    rcases List.mem_cons.mp ha with hb | hb
    · subst hb
      have hle := length_filter_le_of bs p q h
      rw [if_pos hpa, if_neg (by simp [hqa])]
      simp only [List.length_cons]
      omega
    · have hlt := ih hb
      by_cases hq : q b = true
      · rw [if_pos hq, if_pos (h b hq)]
        simp only [List.length_cons]
        omega
      · rw [if_neg hq]
        by_cases hp : p b = true
        · rw [if_pos hp]
          simp only [List.length_cons]
          omega
        · rw [if_neg hp]
          exact hlt

/-- The actor bookkeeping performed when an unvisited step id is first
visited: resolve the step, and when its actor is not yet recorded, resolve
and append that actor.  Returns the new actor order and seen-actor ids. -/
def travUpdate (steps : List ProcessStep) (actors : List Actor)
    (stepId : String) (st : TravState) : List Actor × List String :=
  match steps.find? (fun s => s.id == stepId) with
  | some step =>
    if step.actorId ∈ st.seenActors then
      (st.actorOrder, st.seenActors)
    else
      match actors.find? (fun a => a.id == step.actorId) with
      | some actor =>
        (st.actorOrder ++ [actor], st.seenActors ++ [actor.id])
      | none => (st.actorOrder, st.seenActors)
  | none => (st.actorOrder, st.seenActors)

/-- The recursive `traverseFlows` walk, as an explicit worklist: popping an
unvisited id marks it visited, appends its actor on first sight, and pushes
its flow successors in front of the remaining work, which reproduces the
source depth-first recursion exactly (children of a node are fully
processed, in order, before its right siblings, against the same evolving
state).  The extra `univ` membership test serves only termination: the walk
starts at the start id and every pushed id is a flow target, and `univ`
collects exactly those ids, so the test never fails on the calls the
generator makes. -/
def traverseFlows (steps : List ProcessStep) (actors : List Actor)
    (graph : List (String × List String)) (univ : List String) :
    List String → TravState → TravState
  | [], st => st
  | stepId :: rest, st =>
    if stepId ∈ st.visitedSteps ∨ stepId ∉ univ then
      traverseFlows steps actors graph univ rest st
    else
      traverseFlows steps actors graph univ (graphGet graph stepId ++ rest)
        ⟨(travUpdate steps actors stepId st).1,
          (travUpdate steps actors stepId st).2,
          st.visitedSteps ++ [stepId]⟩
termination_by pending st =>
  ((univ.filter (fun x => decide (x ∉ st.visitedSteps))).length,
    pending.length)
decreasing_by
  · apply Prod.Lex.right
    simp
  · apply Prod.Lex.left
    rename_i hcond
    push_neg at hcond
    refine length_filter_lt_of univ
      (fun x => decide (x ∉ st.visitedSteps))
      (fun x => decide (x ∉ st.visitedSteps ++ [stepId]))
      ?_ stepId hcond.2 ?_ ?_
    · intro a hqa
      simp only [decide_eq_true_eq] at hqa ⊢
      intro hmem
      exact hqa (List.mem_append_left _ hmem)
    · simp only [decide_eq_true_eq]
      exact hcond.1
    · simp only [decide_eq_false_iff_not]
      push_neg
      exact List.mem_append_right _ (List.mem_singleton.mpr rfl)

/-- The initial traversal state: the actor of the start step, when it
resolves, is recorded first. -/
def travInit (actors : List Actor) (startStep : ProcessStep) : TravState :=
  match actors.find? (fun a => a.id == startStep.actorId) with
  | some startActor => ⟨[startActor], [startActor.id], []⟩
  | none => ⟨[], [], []⟩

/-- The traversal phase of `getActorOrderByFlow`: seed the state with the
actor of the start step (when both resolve), then walk the flow graph from
the start step.  Pure version over already-extracted arrays. -/
def travResult (steps : List ProcessStep) (actors : List Actor)
    (flows : List Flow) : TravState :=
  match steps.find? (fun s => s.type == "start") with
  | some startStep =>
    traverseFlows steps actors (buildFlowGraph flows)
      (startStep.id :: flows.map (fun f => f.to_)) [startStep.id]
      (travInit actors startStep)
  | none => ⟨[], [], []⟩

/-- `getActorOrderByFlow` on extracted arrays: the traversal order followed
by every actor never reached, in original array order. -/
def getActorOrderL (steps : List ProcessStep) (actors : List Actor)
    (flows : List Flow) : List Actor :=
  (travResult steps actors flows).actorOrder
    ++ actors.filter
        (fun a => decide (a.id ∉ (travResult steps actors flows).seenActors))

/-- `getActorOrderByFlow` with the JavaScript dynamic checks.  The source
dereferences all three arrays unconditionally (`json.steps.find` at entry,
`buildFlowGraph(json.flows)` and the final `json.actors.forEach` on every
call path), so a non-array in any of the three fields raises a TypeError. -/
def getActorOrderByFlow (json : ProcessSchema) : Except String (List Actor) := do
  let steps ← jsIter json.steps
  let actors ← jsIter json.actors
  let flows ← jsIter json.flows
  pure (getActorOrderL steps actors flows)

/-- The swimlane block label: `name - department` when a department is
present (truthy), otherwise `name` alone. -/
def swimlaneLabel (actor : Actor) : String :=
  if actor.department != "" then actor.name ++ " - " ++ actor.department
  else actor.name

/-- The lines one actor contributes when it has steps: the subgraph header,
one node line per step of the actor in `steps` order, the subgraph closer
and a blank separator line. -/
def actorBlock (steps : List ProcessStep) (actor : Actor) : List String :=
  ["    subgraph " ++ sanitizeId actor.id ++ "[\"" ++ swimlaneLabel actor ++ "\"]"]
    ++ (steps.filter (fun s => s.actorId == actor.id)).map
        (fun s => "        " ++ buildNodeDefinition s)
    ++ ["    end", ""]

/-- `buildSwimlanes` on extracted arrays: one block per actor in traversal
order, skipping actors with no steps. -/
def buildSwimlanesL (actorOrder : List Actor) (steps : List ProcessStep) :
    List String :=
  actorOrder.flatMap (fun actor =>
    if (steps.filter (fun s => s.actorId == actor.id)).length == 0 then []
    else actorBlock steps actor)

/-- `buildSwimlanes` with the JavaScript dynamic checks. -/
def buildSwimlanes (json : ProcessSchema) : Except String (List String) := do
  let steps ← jsIter json.steps
  let actorOrder ← getActorOrderByFlow json
  pure (buildSwimlanesL actorOrder steps)

/-- The generic defensive error message of the generator. -/
def invalidMsg : String := "Invalid ProcessSchema: missing required fields"

/-- `generateMermaidFromJson`: fails with the generic invalid-document error
when the argument is nullish or its `actors` or `steps` field is falsy;
otherwise emits the header, the swimlane blocks, the flow lines and the
style classes, joined by newlines (any non-array reached during generation
raises a TypeError instead). -/
def generateMermaidFromJson (json : Option ProcessSchema) :
    Except String String :=
  match json with
  | none => .error invalidMsg
  | some j =>
    if !(j.actors.truthy) || !(j.steps.truthy) then .error invalidMsg
    else do
      let swimlanes ← buildSwimlanes j
      let flows ← buildFlows j
      pure (String.intercalate "\n"
        (["graph TB", ""] ++ swimlanes ++ [""] ++ flows ++ [""] ++ buildStyles))

/-- The duplicate-step-id message. -/
def dupMsg (id : String) : String := "Duplicate step ID: " ++ id

/-- The messages contributed by one actor entry of the validator. -/
def actorMsgs (p : Nat × Actor) : List String :=
  (if p.2.id == "" then ["actors[" ++ toString p.1 ++ "].id is required"] else [])
    ++ (if p.2.name == "" then ["actors[" ++ toString p.1 ++ "].name is required"]
        else [])

/-- The messages contributed by one step of the validator, given the set of
step ids seen so far. -/
def stepMsgs (actorIds : List String) (seen : List String) (idx : Nat)
    (step : ProcessStep) : List String :=
  (if step.id == "" then ["steps[" ++ toString idx ++ "].id is required"]
   else [])
    ++ (if step.id ∈ seen then [dupMsg step.id] else [])
    ++ (if step.type ∈ ["action", "decision", "start", "end"] then []
        else ["steps[" ++ toString idx
                ++ "].type must be action|decision|start|end"])
    ++ (if step.label == "" then
          ["steps[" ++ toString idx ++ "].label is required"]
        else [])
    ++ (if step.actorId == "" then
          ["steps[" ++ toString idx ++ "].actorId is required"]
        else [])
    ++ (if step.actorId != "" ∧ step.actorId ∉ actorIds then
          ["steps[" ++ toString idx ++ "].actorId \"" ++ step.actorId
            ++ "\" references non-existent actor"]
        else [])

/-- One iteration of the per-step validation loop: appends the messages of
this step and records its id in the running set of seen ids (the id is
recorded unconditionally, exactly as the source `stepIds.add(step.id)`). -/
def stepCheck (actorIds : List String) (acc : List String × List String)
    (p : Nat × ProcessStep) : List String × List String :=
  (acc.1 ++ stepMsgs actorIds acc.2 p.1 p.2, acc.2 ++ [p.2.id])

/-- The messages contributed by one flow entry of the validator. -/
def flowMsgs (stepIds : List String) (p : Nat × Flow) : List String :=
  (if p.2.from_ == "" then ["flows[" ++ toString p.1 ++ "].from is required"]
   else [])
    ++ (if p.2.to_ == "" then ["flows[" ++ toString p.1 ++ "].to is required"]
        else [])
    ++ (if p.2.from_ != "" ∧ p.2.from_ ∉ stepIds then
          ["flows[" ++ toString p.1 ++ "].from \"" ++ p.2.from_
            ++ "\" references non-existent step"]
        else [])
    ++ (if p.2.to_ != "" ∧ p.2.to_ ∉ stepIds then
          ["flows[" ++ toString p.1 ++ "].to \"" ++ p.2.to_
            ++ "\" references non-existent step"]
        else [])

/-- `validateProcessSchema`: accumulates one message per violation, in
source order (presence and array checks, actors, steps with duplicate
tracking, flows, start count, end count).  Iterating a truthy non-array
collection raises a TypeError, exactly as the optional-chained `forEach`
calls of the source do. -/
def validateProcessSchema (json : ProcessSchema) :
    Except String (List String) := do
  let e1 :=
    (if json.processName == "" then ["processName is required"] else [])
      ++ (if json.processId == "" then ["processId is required"] else [])
      ++ (if json.actors.isArray then [] else ["actors must be an array"])
      ++ (if json.steps.isArray then [] else ["steps must be an array"])
      ++ (if json.flows.isArray then [] else ["flows must be an array"])
  let actorsL ← jsIterOpt json.actors
  let e2 := actorsL.enum.flatMap actorMsgs
  let actorIds := actorsL.map (fun a => a.id)
  let stepsL ← jsIterOpt json.steps
  let folded := stepsL.enum.foldl (stepCheck actorIds) ([], [])
  let flowsL ← jsIterOpt json.flows
  let e4 := flowsL.enum.flatMap (flowMsgs folded.2)
  let startNodes := stepsL.filter (fun s => s.type == "start")
  let e5 :=
    if startNodes.length == 0 then ["Process must have exactly one start node"]
    else if startNodes.length > 1 then
      ["Process must have exactly one start node (found multiple)"]
    else []
  let endNodes := stepsL.filter (fun s => s.type == "end")
  let e6 :=
    if endNodes.length == 0 then ["Process must have at least one end node"]
    else []
  pure (e1 ++ e2 ++ folded.1 ++ e4 ++ e5 ++ e6)

/-- A collection value that the optional-chained loops of the validator can
iterate without raising: an array or a nullish value. -/
def JSArr.arrayOrNullish {α : Type} : JSArr α → Bool
  | .nonArr _ => false
  | _ => true

/-- Concrete fixture: a valid document whose actors are declared in the
reverse of their traversal order (Finance first, Employee last, while the
flow visits Employee, then Manager, then Finance). -/
def exActors : List Actor :=
  [⟨"fin", "Finance", "F"⟩, ⟨"mgr", "Manager", ""⟩, ⟨"emp", "Employee", "Ops"⟩]

def exSteps : List ProcessStep :=
  [⟨"s1", "start", "Start", "emp", [], []⟩,
   ⟨"s2", "decision", "Review", "mgr", ["c1"], ["r1"]⟩,
   ⟨"s3", "action", "Pay", "fin", ["c2"], []⟩,
   ⟨"s4", "end", "End", "fin", [], []⟩]

def exFlows : List Flow :=
  [⟨"s1", "s2", "", "normal"⟩, ⟨"s2", "s3", "Approved", "conditional"⟩,
   ⟨"s3", "s4", "", "normal"⟩]

def exDoc : ProcessSchema :=
  ⟨"Expense", "p1", .arr exActors, .arr exSteps, .arr exFlows⟩

/-- Concrete fixture: a document that passes validation although two of its
step ids (`a b` and `a_b`) sanitize to the same Mermaid identifier. -/
def collideSteps : List ProcessStep :=
  [⟨"s0", "start", "Go", "a1", [], []⟩,
   ⟨"a b", "action", "X", "a1", [], []⟩,
   ⟨"a_b", "action", "Y", "a1", [], []⟩,
   ⟨"s9", "end", "Stop", "a1", [], []⟩]

def collideDoc : ProcessSchema :=
  ⟨"P", "p", .arr [⟨"a1", "Alice", ""⟩], .arr collideSteps,
    .arr [⟨"s0", "a b", "", "normal"⟩, ⟨"a b", "a_b", "", "normal"⟩,
          ⟨"a_b", "s9", "", "normal"⟩]⟩

/-- Concrete fixture: an actor whose name contains a raw double quote and a
raw newline. -/
def quoteActor : Actor := ⟨"A1", "Ali\"ce\nB", "D"⟩

def quoteDoc : ProcessSchema :=
  ⟨"P", "p", .arr [quoteActor], .arr [⟨"s1", "action", "L", "A1", [], []⟩],
    .arr []⟩

/-- Concrete fixture: steps with a duplicated id `dup`. -/
def dupSteps : List ProcessStep :=
  [⟨"s1", "start", "Go", "a1", [], []⟩,
   ⟨"dup", "action", "X", "a1", [], []⟩,
   ⟨"dup", "action", "Y", "a1", [], []⟩,
   ⟨"s2", "end", "Stop", "a1", [], []⟩]

/-- Concrete fixture: a document with a duplicated step id `dup`. -/
def dupDoc : ProcessSchema :=
  ⟨"P", "p", .arr [⟨"a1", "A", ""⟩], .arr dupSteps, .arr []⟩

theorem node_data (t : String) :
    ("node_" ++ t).data = 'n' :: 'o' :: 'd' :: 'e' :: '_' :: t.data := rfl

theorem toLowerStr_node (t : String) :
    toLowerStr ("node_" ++ t) = "node_" ++ toLowerStr t := rfl

/-- No reserved keyword starts with the letter n, so a `node_`-prefixed
identifier can never collide with the keyword list. -/
theorem node_prefixed_not_reserved (t : String) :
    ("node_" ++ t) ∉ RESERVED_KEYWORDS := by
  intro hmem
  have hhead : (("node_" ++ t).data).head? = some 'n' := rfl
  have hall : ∀ u ∈ RESERVED_KEYWORDS, (u.data).head? ≠ some 'n' := by decide
  exact hall _ hmem hhead

theorem contains_eq_false_iff (l : List String) (x : String) :
    l.contains x = false ↔ x ∉ l := by
  simp [List.contains]

theorem contains_eq_true_iff (l : List String) (x : String) :
    l.contains x = true ↔ x ∈ l := by
  simp [List.contains]

/-- Splitting off a proved data-level prefix as a string append. -/
theorem append_extract (x s : String) (h : x.data <+: s.data) :
    ∃ r, s = x ++ r := by
  obtain ⟨t, ht⟩ := h
  refine ⟨⟨t⟩, ?_⟩
  apply String.ext
  rw [String.data_append]
  exact ht.symm

/-- The closed form of `buildNodeDefinition`: shape by step type, then the
style tags, control tag first. -/
theorem buildNodeDefinition_eq (step : ProcessStep) :
    buildNodeDefinition step =
      (if step.type == "start" ∨ step.type == "end" then
          sanitizeId step.id ++ "((" ++ escapeLabel step.label ++ "))"
        else if step.type == "decision" then
          sanitizeId step.id ++ "\x7b" ++ escapeLabel step.label ++ "\x7d"
        else sanitizeId step.id ++ "[\"" ++ escapeLabel step.label ++ "\"]")
      ++ (if step.controls ≠ [] ∧ step.risks ≠ [] then ":::controlStyle:riskStyle"
          else if step.controls ≠ [] then ":::controlStyle"
          else if step.risks ≠ [] then ":::riskStyle"
          else "") := by
  rcases step with ⟨id, ty, lbl, aid, cs, rs⟩
  simp only [buildNodeDefinition]
  by_cases h1 : (ty == "start") = true <;> by_cases h2 : (ty == "end") = true <;>
    by_cases h3 : (ty == "decision") = true <;>
      cases cs <;> cases rs <;>
        simp_all [String.append_assoc, String.intercalate, String.append_empty] <;>
      try rfl


/-- C2: every node or group identifier the generator emits goes through
`sanitizeId`: the emitted identifier is the input id with every character
outside `[A-Za-z0-9_-]` replaced by an underscore, prefixed with `node_`
when the replaced string is, case-insensitively, a reserved keyword;
consequently no emitted identifier equals a reserved keyword (not even up
to case), for any input id. -/
theorem c2_identifier_sanitization :
    (∀ id : String,
      (replaceDisallowed id).data
        = id.data.map (fun c => if isAllowedChar c then c else '_'))
    ∧ (∀ id : String,
      sanitizeId id
        = if RESERVED_KEYWORDS.contains (toLowerStr (replaceDisallowed id)) then
            "node_" ++ replaceDisallowed id
          else replaceDisallowed id)
    ∧ (∀ id : String, toLowerStr (sanitizeId id) ∉ RESERVED_KEYWORDS)
    ∧ (∀ id : String, sanitizeId id ∉ RESERVED_KEYWORDS)
    ∧ (∀ step : ProcessStep, ∃ r,
        buildNodeDefinition step = sanitizeId step.id ++ r)
    ∧ (∀ (steps : List ProcessStep) (actor : Actor), ∃ r,
        (actorBlock steps actor).head?
          = some ("    subgraph " ++ sanitizeId actor.id ++ r))
    ∧ (∀ flow : Flow, ∃ r, flowLine flow = "    " ++ sanitizeId flow.from_ ++ r) := by
  refine ⟨fun id => rfl, fun id => rfl, ?_, ?_, ?_, ?_, ?_⟩
  · intro id
    unfold sanitizeId
    by_cases h : RESERVED_KEYWORDS.contains (toLowerStr (replaceDisallowed id)) = true
    · rw [if_pos h, toLowerStr_node]
      exact node_prefixed_not_reserved _
    · rw [if_neg h]
      exact (contains_eq_false_iff _ _).mp (Bool.not_eq_true _ ▸ h)
  · intro id
    unfold sanitizeId
    by_cases h : RESERVED_KEYWORDS.contains (toLowerStr (replaceDisallowed id)) = true
    · rw [if_pos h]
      exact node_prefixed_not_reserved _
    · rw [if_neg h]
      intro hmem
      have hlow : ∀ u ∈ RESERVED_KEYWORDS, toLowerStr u = u := by decide
      exact absurd
        ((hlow _ hmem).symm ▸ (contains_eq_true_iff _ _).mpr hmem) h
  · intro step
    apply append_extract
    simp only [buildNodeDefinition]
    split_ifs <;> simp [String.data_append, List.append_assoc]
  · intro steps actor
    refine ⟨"[\"" ++ swimlaneLabel actor ++ "\"]", ?_⟩
    simp [actorBlock, String.append_assoc]
  · intro flow
    apply append_extract
    simp only [flowLine]
    split_ifs <;> simp [String.data_append, List.append_assoc]

/-- Characters of a single-character global replacement: the pattern
character never survives when the replacement does not contain it. -/
theorem not_mem_replaceAllChar (s : String) (c : Char) (r : String)
    (hc : c ∉ r.data) : c ∉ (replaceAllChar s c r).data := by
  intro hmem
  simp only [replaceAllChar, List.mem_flatMap] at hmem
  obtain ⟨ch, hch, hmem2⟩ := hmem
  by_cases h : (ch == c) = true
  · rw [if_pos h] at hmem2
    exact hc hmem2
  · rw [if_neg h] at hmem2
    simp only [List.mem_singleton] at hmem2
    subst hmem2
    simp at h

/-- Characters of a single-character global replacement come from the input
or from the replacement string. -/
theorem mem_replaceAllChar (s : String) (c : Char) (r : String) (d : Char)
    (hmem : d ∈ (replaceAllChar s c r).data) : d ∈ s.data ∨ d ∈ r.data := by
  simp only [replaceAllChar, List.mem_flatMap] at hmem
  obtain ⟨ch, hch, hmem2⟩ := hmem
  by_cases h : (ch == c) = true
  · rw [if_pos h] at hmem2
    exact Or.inr hmem2
  · rw [if_neg h] at hmem2
    simp only [List.mem_singleton] at hmem2
    subst hmem2
    exact Or.inl hch

/-- No raw double quote and no raw newline survives `escapeLabel`. -/
theorem escapeLabel_clean (s : String) :
    '"' ∉ (escapeLabel s).data ∧ '\n' ∉ (escapeLabel s).data := by
  constructor
  · intro hmem
    rcases mem_replaceAllChar _ _ _ _ hmem with h | h
    · exact not_mem_replaceAllChar s '"' "#quot;" (by decide) h
    · revert h
      decide
  · exact not_mem_replaceAllChar _ '\n' "<br/>" (by decide)

/-- C3 counterexample: an actor name containing a raw double quote and a raw
newline is emitted verbatim into the compiled output of `quoteDoc` — the
escape sequences never appear — because the swimlane label is not passed
through `escapeLabel`. -/
theorem c3_counterexample :
    ("Ali\"ce\nB").data
        <:+: ((generateMermaidFromJson (some quoteDoc)).toOption.getD "").data
    ∧ ¬ (("#quot;").data
        <:+: ((generateMermaidFromJson (some quoteDoc)).toOption.getD "").data)
    ∧ ¬ (("<br/>").data
        <:+: ((generateMermaidFromJson (some quoteDoc)).toOption.getD "").data) := by
  exact ⟨by decide, by decide, by decide⟩

/-- C3 (amended): `escapeLabel` removes every raw double quote and newline,
and it is applied to every step label and to every flow label; the actor
swimlane labels (name, and the department suffix), however, are emitted
verbatim into the subgraph header without escaping. -/
theorem c3_label_escaping :
    (∀ s : String, '"' ∉ (escapeLabel s).data ∧ '\n' ∉ (escapeLabel s).data)
    ∧ (∀ step : ProcessStep,
        buildNodeDefinition step =
          (if step.type == "start" ∨ step.type == "end" then
              sanitizeId step.id ++ "((" ++ escapeLabel step.label ++ "))"
            else if step.type == "decision" then
              sanitizeId step.id ++ "\x7b" ++ escapeLabel step.label ++ "\x7d"
            else sanitizeId step.id ++ "[\"" ++ escapeLabel step.label ++ "\"]")
          ++ (if step.controls ≠ [] ∧ step.risks ≠ [] then
                ":::controlStyle:riskStyle"
              else if step.controls ≠ [] then ":::controlStyle"
              else if step.risks ≠ [] then ":::riskStyle"
              else ""))
    ∧ (∀ flow : Flow, flow.label ≠ "" →
        flowLine flow
          = "    " ++ sanitizeId flow.from_ ++ " -->|" ++ escapeLabel flow.label
              ++ "| " ++ sanitizeId flow.to_)
    ∧ (∀ (steps : List ProcessStep) (actor : Actor),
        actorBlock steps actor
          = ("    subgraph " ++ sanitizeId actor.id ++ "[\""
                ++ swimlaneLabel actor ++ "\"]")
            :: ((steps.filter (fun s => s.actorId == actor.id)).map
                  (fun s => "        " ++ buildNodeDefinition s)
              ++ ["    end", ""])) := by
  refine ⟨escapeLabel_clean, buildNodeDefinition_eq, ?_, ?_⟩
  · intro flow h
    simp only [flowLine]
    rw [if_pos]
    simp [bne_iff_ne, h]
  · intro steps actor
    simp [actorBlock]


/-- C8: one edge statement per flow in array order, rendered with a label
exactly when the label is non-empty; the flow type field has no effect; and
the edge lines come after all actor group blocks in the compiled output. -/
theorem c8_edge_statements (d : ProcessSchema) (as : List Actor)
    (ss : List ProcessStep) (fs : List Flow)
    (hA : d.actors = .arr as) (hS : d.steps = .arr ss)
    (hF : d.flows = .arr fs) :
    buildFlows d = .ok (fs.map flowLine)
    ∧ (∀ flow : Flow, flow.label ≠ "" →
        flowLine flow = "    " ++ sanitizeId flow.from_ ++ " -->|"
          ++ escapeLabel flow.label ++ "| " ++ sanitizeId flow.to_)
    ∧ (∀ flow : Flow, flow.label = "" →
        flowLine flow
          = "    " ++ sanitizeId flow.from_ ++ " --> " ++ sanitizeId flow.to_)
    ∧ (∀ (flow : Flow) (t : String),
        flowLine { flow with type := t } = flowLine flow)
    ∧ generateMermaidFromJson (some d)
        = .ok (String.intercalate "\n"
            (["graph TB", ""] ++ buildSwimlanesL (getActorOrderL ss as fs) ss
              ++ [""] ++ fs.map flowLine ++ [""] ++ buildStyles)) := by
  rcases d with ⟨n, i, A, S, F⟩
  cases hA
  cases hS
  cases hF
  refine ⟨rfl, ?_, ?_, fun flow t => rfl, rfl⟩
  · intro flow h
    simp only [flowLine]
    rw [if_pos]
    simp [bne_iff_ne, h]
  · intro flow h
    simp [flowLine, h]

/-- Witness for C8: the fixture document, with its three labeled and
unlabeled flows, satisfies the hypotheses. -/
theorem c8_edge_statements_witness :
    exDoc.flows = .arr exFlows ∧ buildFlows exDoc = .ok (exFlows.map flowLine) :=
  ⟨rfl, (c8_edge_statements exDoc exActors exSteps exFlows rfl rfl rfl).1⟩

theorem snd_mem_of_mem_enumFrom {α : Type} :
    ∀ (l : List α) (n : Nat) (p : Nat × α), p ∈ l.enumFrom n → p.2 ∈ l := by
  intro l
  induction l with
  | nil =>
    intro n p h
    cases h
  | cons x xs ih =>
    intro n p h
    rcases List.mem_cons.mp h with h | h
    · subst h
      exact List.mem_cons_self _ _
    · exact List.mem_cons_of_mem _ (ih (n + 1) p h)

/-- The per-step validation fold leaves the message accumulator unchanged
and collects the step ids, when every step satisfies all per-step checks. -/
theorem fold_stepCheck_clean (actorIds : List String) :
    ∀ (ss : List ProcessStep) (n : Nat) (acc : List String)
      (seen : List String),
    (∀ s ∈ ss, s.id ≠ "" ∧ s.type ∈ ["action", "decision", "start", "end"]
      ∧ s.label ≠ "" ∧ s.actorId ≠ "" ∧ s.actorId ∈ actorIds) →
    (ss.map (fun s => s.id)).Nodup →
    (∀ s ∈ ss, s.id ∉ seen) →
    (ss.enumFrom n).foldl (stepCheck actorIds) (acc, seen)
      = (acc, seen ++ ss.map (fun s => s.id)) := by
  intro ss
  induction ss with
  | nil =>
    intro n acc seen _ _ _
    simp
  | cons s rest ih =>
    intro n acc seen hok hnodup hseen
    obtain ⟨h1, h2, h3, h4, h5⟩ := hok s (List.mem_cons_self _ _)
    have hs0 : s.id ∉ seen := hseen s (List.mem_cons_self _ _)
    have hstep : stepCheck actorIds (acc, seen) (n, s) = (acc, seen ++ [s.id]) := by
      simp [stepCheck, stepMsgs, h1, h2, h3, h4, h5, hs0]
    rw [show (s :: rest).enumFrom n = (n, s) :: rest.enumFrom (n + 1) from rfl,
      List.foldl_cons, hstep]
    rw [ih (n + 1) acc (seen ++ [s.id])
        (fun x hx => hok x (List.mem_cons_of_mem _ hx))
        (List.nodup_cons.mp hnodup).2
        (fun x hx hmem => by
          rcases List.mem_append.mp hmem with hm | hm
          · exact hseen x (List.mem_cons_of_mem _ hx) hm
          · have hxs : x.id = s.id := by simpa using hm
            refine (List.nodup_cons.mp hnodup).1 ?_
            show s.id ∈ rest.map (fun s => s.id)
            rw [← hxs]
            exact List.mem_map_of_mem _ hx)]
    simp [List.append_assoc]

/-- C4: a document satisfying every invariant of the data model validates
with the empty message list. -/
theorem c4_valid_documents (d : ProcessSchema) (as : List Actor)
    (ss : List ProcessStep) (fs : List Flow)
    (hA : d.actors = .arr as) (hS : d.steps = .arr ss)
    (hF : d.flows = .arr fs)
    (hname : d.processName ≠ "") (hpid : d.processId ≠ "")
    (hactors : ∀ a ∈ as, a.id ≠ "" ∧ a.name ≠ "")
    (hsteps : ∀ s ∈ ss, s.id ≠ ""
      ∧ s.type ∈ ["action", "decision", "start", "end"]
      ∧ s.label ≠ "" ∧ s.actorId ≠ ""
      ∧ s.actorId ∈ as.map (fun a => a.id))
    (hnodup : (ss.map (fun s => s.id)).Nodup)
    (hflows : ∀ f ∈ fs, f.from_ ∈ ss.map (fun s => s.id)
      ∧ f.to_ ∈ ss.map (fun s => s.id))
    (hstart : (ss.filter (fun s => s.type == "start")).length = 1)
    (hend : 1 ≤ (ss.filter (fun s => s.type == "end")).length) :
    validateProcessSchema d = .ok [] := by
  rcases d with ⟨n, i, A, S, F⟩
  cases hA
  cases hS
  cases hF
  simp only at hname hpid
  have hids : ∀ x ∈ ss.map (fun s => s.id), x ≠ "" := by
    intro x hx
    obtain ⟨s, hs, rfl⟩ := List.mem_map.mp hx
    exact (hsteps s hs).1
  have hfold := fold_stepCheck_clean (as.map (fun a => a.id)) ss 0 [] []
    hsteps hnodup (fun s _ h => (List.not_mem_nil _ h))
  simp only [validateProcessSchema, jsIterOpt, Bind.bind, Except.bind,
    Pure.pure, Except.pure, JSArr.isArray]
  rw [show (ss.enum : List (Nat × ProcessStep)) = ss.enumFrom 0 from rfl, hfold]
  simp only [List.nil_append]
  rw [hstart]
  have e2 : (as.enum.flatMap actorMsgs) = [] := by
    rw [List.flatMap_eq_nil_iff]
    intro p hp
    have hmem := snd_mem_of_mem_enumFrom as 0 p hp
    simp [actorMsgs, (hactors _ hmem).1, (hactors _ hmem).2]
  have e4 : (fs.enum.flatMap (flowMsgs (ss.map (fun s => s.id)))) = [] := by
    rw [List.flatMap_eq_nil_iff]
    intro p hp
    have hmem := snd_mem_of_mem_enumFrom fs 0 p hp
    obtain ⟨hfrom, hto⟩ := hflows _ hmem
    simp [flowMsgs, hfrom, hto, hids _ hfrom, hids _ hto]
  have hne : ss.filter (fun s => s.type == "end") ≠ [] := by
    intro h
    rw [h] at hend
    simp at hend
  obtain ⟨x, hx⟩ := List.exists_mem_of_ne_nil _ hne
  have hx2 := List.mem_filter.mp hx
  have hendx : ∃ x ∈ ss, x.type = "end" := ⟨x, hx2.1, by simpa using hx2.2⟩
  simp [hname, hpid, e2, e4, hendx]

/-- Witness for C4: the fixture document satisfies every invariant and
validates with the empty list. -/
theorem c4_valid_documents_witness :
    validateProcessSchema exDoc = .ok [] :=
  c4_valid_documents exDoc exActors exSteps exFlows rfl rfl rfl
    (by decide) (by decide) (by decide) (by decide) (by decide) (by decide)
    (by decide) (by decide)

/-- C10: the two distinct ids of `collideDoc` whose sanitized forms agree. -/
theorem c10_sanitize_not_injective :
    sanitizeId "a b" = sanitizeId "a_b"
    ∧ ("a b" : String) ≠ "a_b"
    ∧ buildNodeDefinition ⟨"a b", "action", "X", "a1", [], []⟩ = "a_b[\"X\"]"
    ∧ buildNodeDefinition ⟨"a_b", "action", "Y", "a1", [], []⟩ = "a_b[\"Y\"]"
    ∧ validateProcessSchema collideDoc = .ok []
    ∧ (generateMermaidFromJson (some collideDoc)).toOption.isSome = true := by
  exact ⟨rfl, by decide, rfl, rfl, rfl, rfl⟩

/-- C5 counterexample: a structurally incomplete input whose `actors` field
is a truthy non-array value makes the validator raise a TypeError when the
optional-chained actor loop is reached, instead of returning a message
list. -/
theorem c5_counterexample :
    validateProcessSchema ⟨"P", "p", .nonArr true, .arr [], .arr []⟩
      = .error "TypeError" := rfl

/-- C5 (amended): the validator returns normally, with the full accumulated
message list, for every input whose three collection fields are each an
array or nullish — however incomplete the rest of the document is; a
non-nullish non-array collection value instead raises a TypeError. -/
theorem c5_validator_total (j : ProcessSchema)
    (ha : j.actors.arrayOrNullish = true)
    (hs : j.steps.arrayOrNullish = true)
    (hf : j.flows.arrayOrNullish = true) :
    ∃ msgs, validateProcessSchema j = .ok msgs := by
  rcases j with ⟨n, i, A, S, F⟩
  rcases A with _ | tA | lA <;> rcases S with _ | tS | lS <;>
    rcases F with _ | tF | lF <;>
      first
        | exact ⟨_, rfl⟩
        | simp [JSArr.arrayOrNullish] at ha hs hf

/-- Witness for C5 (amended): the theorem applied to the fully missing
document. -/
theorem c5_validator_total_witness :
    ∃ msgs,
      validateProcessSchema ⟨"", "", .nullish, .nullish, .nullish⟩
        = .ok msgs :=
  c5_validator_total ⟨"", "", .nullish, .nullish, .nullish⟩ rfl rfl rfl

/-- C9 counterexample: a document whose `actors` and `steps` fields are both
present (empty arrays) but whose `flows` field is missing makes the
generator raise a TypeError inside `buildFlowGraph`, rather than return a
string; the generic invalid-document error is not involved. -/
theorem c9_counterexample :
    generateMermaidFromJson (some ⟨"P", "p", .arr [], .arr [], .nullish⟩)
      = .error "TypeError" := rfl

/-- C9 (amended): the generator fails with the generic invalid-document
error exactly when the input is nullish or its `actors` or `steps` field is
falsy; and whenever `actors`, `steps` and `flows` are all arrays — even
empty, and even if validation would fail for other reasons — it returns the
generated string.  (A document with `actors` and `steps` present but
`flows` missing raises a TypeError instead, see the counterexample.) -/
theorem c9_compile_error_behavior :
    (∀ j : Option ProcessSchema,
      generateMermaidFromJson j = .error invalidMsg
        ↔ (j = none
            ∨ ∃ d, j = some d
                ∧ (d.actors.truthy = false ∨ d.steps.truthy = false)))
    ∧ (∀ (d : ProcessSchema) (as : List Actor) (ss : List ProcessStep)
        (fs : List Flow),
        d.actors = .arr as → d.steps = .arr ss → d.flows = .arr fs →
        generateMermaidFromJson (some d)
          = .ok (String.intercalate "\n"
              (["graph TB", ""] ++ buildSwimlanesL (getActorOrderL ss as fs) ss
                ++ [""] ++ fs.map flowLine ++ [""] ++ buildStyles))) := by
  constructor
  · intro j
    constructor
    · rcases j with _ | ⟨n, i, A, S, F⟩
      · intro _
        exact Or.inl rfl
      · intro h
        refine Or.inr ⟨⟨n, i, A, S, F⟩, rfl, ?_⟩
        by_contra hcon
        push_neg at hcon
        obtain ⟨hA, hS⟩ := hcon
        rw [Bool.ne_false_iff] at hA hS
        rcases A with _ | tA | lA <;> rcases S with _ | tS | lS <;>
          rcases F with _ | tF | lF <;>
            simp_all [JSArr.truthy, generateMermaidFromJson, buildSwimlanes,
              getActorOrderByFlow, buildFlows, jsIter, invalidMsg,
              Bind.bind, Except.bind, Pure.pure, Except.pure]
    · intro h
      rcases h with h | ⟨d, hj, hd⟩
      · subst h
        rfl
      · subst hj
        rcases d with ⟨n, i, A, S, F⟩
        simp only [JSArr.truthy] at hd
        rcases hd with hd | hd <;>
          · rcases A with _ | tA | lA <;> rcases S with _ | tS | lS <;>
              simp_all [JSArr.truthy, generateMermaidFromJson]
  · intro d as ss fs hA hS hF
    rcases d with ⟨n, i, A, S, F⟩
    cases hA
    cases hS
    cases hF
    rfl

theorem mem_ifSingleton {c : Prop} [Decidable c] {m x : String}
    (h : m ∈ (if c then [x] else [])) : m = x := by
  by_cases hc : c
  · rw [if_pos hc] at h
    simpa using h
  · rw [if_neg hc] at h
    cases h

theorem mem_ifSingleton2 {c d : Prop} [Decidable c] [Decidable d]
    {m x y : String} (h : m ∈ (if c then [x] else if d then [y] else [])) :
    m = x ∨ m = y := by
  by_cases hc : c
  · rw [if_pos hc] at h
    exact Or.inl (by simpa using h)
  · rw [if_neg hc] at h
    by_cases hd : d
    · rw [if_pos hd] at h
      exact Or.inr (by simpa using h)
    · rw [if_neg hd] at h
      cases h

theorem dupMsg_inj {a b : String} (h : dupMsg a = dupMsg b) : a = b := by
  have hdata := congrArg String.data h
  simp only [dupMsg, String.data_append] at hdata
  exact String.ext (List.append_cancel_left hdata)

theorem dupMsg_head (x : String) : (dupMsg x).data.head? = some 'D' := rfl

theorem ne_dupMsg_of_head {t : String} (x : String)
    (ht : t.data.head? ≠ some 'D') : dupMsg x ≠ t :=
  fun h => ht (h ▸ dupMsg_head x)

theorem head_actors_lit (t u : String) :
    ((("actors[" ++ t) ++ u)).data.head? = some 'a' := rfl

theorem head_steps_lit (t u : String) :
    ((("steps[" ++ t) ++ u)).data.head? = some 's' := rfl

theorem head_steps_lit2 (t u v w : String) :
    ((((("steps[" ++ t) ++ u) ++ v) ++ w)).data.head? = some 's' := rfl

theorem head_flows_lit (t u : String) :
    ((("flows[" ++ t) ++ u)).data.head? = some 'f' := rfl

theorem head_flows_lit2 (t u v w : String) :
    ((((("flows[" ++ t) ++ u) ++ v) ++ w)).data.head? = some 'f' := rfl

theorem not_dup_mem_actorMsgs (x : String) (p : Nat × Actor) :
    dupMsg x ∉ actorMsgs p := by
  intro hm
  simp only [actorMsgs] at hm
  rcases List.mem_append.mp hm with h | h <;>
    exact ne_dupMsg_of_head x (by rw [head_actors_lit]; simp)
      (mem_ifSingleton h)

theorem not_dup_mem_flowMsgs (x : String) (ids : List String)
    (p : Nat × Flow) : dupMsg x ∉ flowMsgs ids p := by
  intro hm
  simp only [flowMsgs] at hm
  rcases List.mem_append.mp hm with h | h
  rcases List.mem_append.mp h with h | h
  rcases List.mem_append.mp h with h | h
  · exact ne_dupMsg_of_head x (by rw [head_flows_lit]; simp)
      (mem_ifSingleton h)
  · exact ne_dupMsg_of_head x (by rw [head_flows_lit]; simp)
      (mem_ifSingleton h)
  · exact ne_dupMsg_of_head x (by rw [head_flows_lit2]; simp)
      (mem_ifSingleton h)
  · exact ne_dupMsg_of_head x (by rw [head_flows_lit2]; simp)
      (mem_ifSingleton h)

theorem count_dup_stepMsgs (actorIds seen : List String) (idx : Nat)
    (s : ProcessStep) (x : String) :
    (stepMsgs actorIds seen idx s).count (dupMsg x)
      = if s.id ∈ seen ∧ s.id = x then 1 else 0 := by
  simp only [stepMsgs, List.count_append]
  have z1 : (if (s.id == "") = true then
      ["steps[" ++ toString idx ++ "].id is required"] else []).count (dupMsg x)
      = 0 := by
    rw [List.count_eq_zero]
    intro hm
    exact ne_dupMsg_of_head x (by rw [head_steps_lit]; simp)
      (mem_ifSingleton hm)
  have z3 : (if s.type ∈ ["action", "decision", "start", "end"] then []
      else ["steps[" ++ toString idx
        ++ "].type must be action|decision|start|end"]).count (dupMsg x)
      = 0 := by
    rw [List.count_eq_zero]
    intro hm
    by_cases hc : s.type ∈ ["action", "decision", "start", "end"]
    · rw [if_pos hc] at hm
      cases hm
    · rw [if_neg hc] at hm
      have heq : dupMsg x
          = "steps[" ++ toString idx
              ++ "].type must be action|decision|start|end" := by
        simpa using hm
      exact ne_dupMsg_of_head x (by rw [head_steps_lit]; simp) heq
  have z4 : (if (s.label == "") = true then
      ["steps[" ++ toString idx ++ "].label is required"] else []).count
        (dupMsg x) = 0 := by
    rw [List.count_eq_zero]
    intro hm
    exact ne_dupMsg_of_head x (by rw [head_steps_lit]; simp)
      (mem_ifSingleton hm)
  have z5 : (if (s.actorId == "") = true then
      ["steps[" ++ toString idx ++ "].actorId is required"] else []).count
        (dupMsg x) = 0 := by
    rw [List.count_eq_zero]
    intro hm
    exact ne_dupMsg_of_head x (by rw [head_steps_lit]; simp)
      (mem_ifSingleton hm)
  have z6 : (if (s.actorId != "") = true ∧ s.actorId ∉ actorIds then
      ["steps[" ++ toString idx ++ "].actorId \"" ++ s.actorId
        ++ "\" references non-existent actor"] else []).count (dupMsg x)
      = 0 := by
    rw [List.count_eq_zero]
    intro hm
    exact ne_dupMsg_of_head x (by rw [head_steps_lit2]; simp)
      (mem_ifSingleton hm)
  have zdup : (if s.id ∈ seen then [dupMsg s.id] else []).count (dupMsg x)
      = if s.id ∈ seen ∧ s.id = x then 1 else 0 := by
    by_cases hin : s.id ∈ seen
    · rw [if_pos hin]
      by_cases hx : s.id = x
      · subst hx
        simp [hin]
      · rw [List.count_eq_zero.mpr, if_neg (fun hand => hx hand.2)]
        intro hmem
        have heq : dupMsg x = dupMsg s.id := by simpa using hmem
        exact hx (dupMsg_inj heq).symm
    · rw [if_neg hin, if_neg (fun hand => hin hand.1)]
      simp
  rw [z1, z3, z4, z5, z6, zdup]
  omega

theorem count_dup_fold (actorIds : List String) (x : String) :
    ∀ (ss : List ProcessStep) (n : Nat) (acc seen : List String),
    (((ss.enumFrom n).foldl (stepCheck actorIds) (acc, seen)).1).count (dupMsg x)
      = acc.count (dupMsg x)
        + (if x ∈ seen then (ss.map (fun s => s.id)).count x
           else (ss.map (fun s => s.id)).count x - 1) := by
  intro ss
  induction ss with
  | nil =>
    intro n acc seen
    simp
  | cons s rest ih =>
    intro n acc seen
    rw [show (s :: rest).enumFrom n = (n, s) :: rest.enumFrom (n + 1) from rfl,
      List.foldl_cons]
    rw [show stepCheck actorIds (acc, seen) (n, s)
        = (acc ++ stepMsgs actorIds seen n s, seen ++ [s.id]) from rfl]
    rw [ih (n + 1) (acc ++ stepMsgs actorIds seen n s) (seen ++ [s.id])]
    rw [List.count_append, count_dup_stepMsgs]
    have hmem : (x ∈ seen ++ [s.id]) ↔ (x ∈ seen ∨ x = s.id) := by
      simp [List.mem_append]
    have hcnt : ((s :: rest).map (fun s => s.id)).count x
        = (rest.map (fun s => s.id)).count x + (if s.id = x then 1 else 0) := by
      by_cases h : s.id = x <;> simp [List.count_cons, h]
    rw [hcnt]
    by_cases h2 : s.id = x
    · subst h2
      by_cases h1 : s.id ∈ seen <;> simp [h1, hmem]
      omega
    · have hx : ¬ (x = s.id) := fun h => h2 h.symm
      by_cases h1 : x ∈ seen <;> simp [h1, h2, hx, hmem]
/-- The validator output on a document whose three collections are arrays,
written out structurally. -/
theorem validate_arr_eq (n i : String) (as : List Actor)
    (ss : List ProcessStep) (fs : List Flow) :
    validateProcessSchema ⟨n, i, .arr as, .arr ss, .arr fs⟩
      = .ok ((if n == "" then ["processName is required"] else [])
          ++ (if i == "" then ["processId is required"] else [])
          ++ [] ++ [] ++ []
          ++ as.enum.flatMap actorMsgs
          ++ (ss.enum.foldl (stepCheck (as.map (fun a => a.id))) ([], [])).1
          ++ fs.enum.flatMap (flowMsgs
              (ss.enum.foldl (stepCheck (as.map (fun a => a.id))) ([], [])).2)
          ++ (if (ss.filter (fun s => s.type == "start")).length == 0 then
                ["Process must have exactly one start node"]
              else if (ss.filter (fun s => s.type == "start")).length > 1 then
                ["Process must have exactly one start node (found multiple)"]
              else [])
          ++ (if (ss.filter (fun s => s.type == "end")).length == 0 then
                ["Process must have at least one end node"]
              else [])) := rfl

/-- The duplicate-id message count of the whole validator output. -/
theorem count_dup_validate (n i : String) (as : List Actor)
    (ss : List ProcessStep) (fs : List Flow) (x : String) :
    ∃ msgs,
      validateProcessSchema ⟨n, i, .arr as, .arr ss, .arr fs⟩ = .ok msgs
      ∧ msgs.count (dupMsg x) = (ss.map (fun s => s.id)).count x - 1 := by
  refine ⟨_, validate_arr_eq n i as ss fs, ?_⟩
  have hz : ∀ (c : Prop) (inst : Decidable c) (t : String),
      t.data.head? ≠ some 'D' →
      (if c then [t] else []).count (dupMsg x) = 0 := by
    intro c inst t ht
    rw [List.count_eq_zero]
    intro hm
    exact ne_dupMsg_of_head x ht (mem_ifSingleton hm)
  have hz2 : (as.enum.flatMap actorMsgs).count (dupMsg x) = 0 := by
    rw [List.count_eq_zero]
    intro hm
    obtain ⟨p, hp, hmem⟩ := List.mem_flatMap.mp hm
    exact not_dup_mem_actorMsgs x p hmem
  have hz4 : (fs.enum.flatMap (flowMsgs
      (ss.enum.foldl (stepCheck (as.map (fun a => a.id))) ([], [])).2)).count
        (dupMsg x) = 0 := by
    rw [List.count_eq_zero]
    intro hm
    obtain ⟨p, hp, hmem⟩ := List.mem_flatMap.mp hm
    exact not_dup_mem_flowMsgs x _ p hmem
  have hz5 : (if (ss.filter (fun s => s.type == "start")).length == 0 then
        ["Process must have exactly one start node"]
      else if (ss.filter (fun s => s.type == "start")).length > 1 then
        ["Process must have exactly one start node (found multiple)"]
      else []).count (dupMsg x) = 0 := by
    rw [List.count_eq_zero]
    intro hm
    rcases mem_ifSingleton2 hm with h | h <;>
      exact ne_dupMsg_of_head x (by decide) h
  have hfold := count_dup_fold (as.map (fun a => a.id)) x ss 0 [] []
  rw [show (ss.enum : List (Nat × ProcessStep)) = ss.enumFrom 0 from rfl] at *
  simp only [List.count_append, hz2, hz4, hz5, hfold]
  simp only [List.count_nil, List.not_mem_nil, if_false, Nat.zero_add]
  have k1 : (if n = "" then ["processName is required"] else []).count
      (dupMsg x) = 0 := hz _ _ _ (by decide)
  have k2 : (if i = "" then ["processId is required"] else []).count
      (dupMsg x) = 0 := hz _ _ _ (by decide)
  have k3 : (if ∀ a ∈ ss, ¬ a.type = "end" then
      ["Process must have at least one end node"] else []).count
        (dupMsg x) = 0 := hz _ _ _ (by decide)
  simp [k1, k2, k3]

theorem nodup_count_le_one {l : List String} (h : l.Nodup) (a : String) :
    l.count a ≤ 1 := List.nodup_iff_count_le_one.mp h a

/-- C6: the Duplicate-step-ID message for an id appears once per repetition
of that id (occurrences beyond the first), and never when all step ids are
distinct. -/
theorem c6_duplicate_ids (d : ProcessSchema) (as : List Actor)
    (ss : List ProcessStep) (fs : List Flow)
    (hA : d.actors = .arr as) (hS : d.steps = .arr ss)
    (hF : d.flows = .arr fs) (x : String) :
    ∃ msgs, validateProcessSchema d = .ok msgs
      ∧ msgs.count (dupMsg x) = (ss.map (fun s => s.id)).count x - 1
      ∧ ((ss.map (fun s => s.id)).Nodup → dupMsg x ∉ msgs) := by
  rcases d with ⟨n, i, A, S, F⟩
  cases hA
  cases hS
  cases hF
  obtain ⟨msgs, hok, hcount⟩ := count_dup_validate n i as ss fs x
  refine ⟨msgs, hok, hcount, ?_⟩
  intro hnodup
  apply List.count_eq_zero.mp
  rw [hcount]
  have := nodup_count_le_one hnodup x
  omega

/-- Witness for C6: on the fixture with the id `dup` occurring twice, the
duplicate message appears exactly once. -/
theorem c6_duplicate_ids_witness :
    ∃ msgs, validateProcessSchema dupDoc = .ok msgs
      ∧ msgs.count (dupMsg "dup")
          = ((dupSteps.map (fun s => s.id)).count "dup") - 1
      ∧ ((dupSteps.map (fun s => s.id)).Nodup → dupMsg "dup" ∉ msgs) :=
  c6_duplicate_ids dupDoc [⟨"a1", "A", ""⟩] dupSteps [] rfl rfl rfl "dup"
theorem traverseFlows_nil (steps : List ProcessStep) (actors : List Actor)
    (graph : List (String × List String)) (univ : List String)
    (st : TravState) :
    traverseFlows steps actors graph univ [] st = st := by
  rw [traverseFlows.eq_def]

theorem traverseFlows_cons_skip (steps : List ProcessStep)
    (actors : List Actor) (graph : List (String × List String))
    (univ : List String) (stepId : String) (rest : List String)
    (st : TravState) (h : stepId ∈ st.visitedSteps ∨ stepId ∉ univ) :
    traverseFlows steps actors graph univ (stepId :: rest) st
      = traverseFlows steps actors graph univ rest st := by
  rw [traverseFlows.eq_def]
  simp only [if_pos h]

theorem traverseFlows_cons_visit (steps : List ProcessStep)
    (actors : List Actor) (graph : List (String × List String))
    (univ : List String) (stepId : String) (rest : List String)
    (st : TravState) (h : ¬(stepId ∈ st.visitedSteps ∨ stepId ∉ univ)) :
    traverseFlows steps actors graph univ (stepId :: rest) st
      = traverseFlows steps actors graph univ (graphGet graph stepId ++ rest)
          ⟨(travUpdate steps actors stepId st).1,
            (travUpdate steps actors stepId st).2,
            st.visitedSteps ++ [stepId]⟩ := by
  rw [traverseFlows.eq_def]
  simp only [if_neg h]

theorem travResult_none (ss : List ProcessStep) (as : List Actor)
    (fs : List Flow) (h : ss.find? (fun s => s.type == "start") = none) :
    travResult ss as fs = ⟨[], [], []⟩ := by
  unfold travResult
  rw [h]

theorem travResult_some (ss : List ProcessStep) (as : List Actor)
    (fs : List Flow) (startStep : ProcessStep)
    (h : ss.find? (fun s => s.type == "start") = some startStep) :
    travResult ss as fs
      = traverseFlows ss as (buildFlowGraph fs)
          (startStep.id :: fs.map (fun f => f.to_)) [startStep.id]
          (travInit as startStep) := by
  unfold travResult
  rw [h]

theorem travInit_some (as : List Actor) (startStep : ProcessStep) (A : Actor)
    (h : as.find? (fun a => a.id == startStep.actorId) = some A) :
    travInit as startStep = ⟨[A], [A.id], []⟩ := by
  unfold travInit
  rw [h]

theorem travInit_none (as : List Actor) (startStep : ProcessStep)
    (h : as.find? (fun a => a.id == startStep.actorId) = none) :
    travInit as startStep = ⟨[], [], []⟩ := by
  unfold travInit
  rw [h]

/-- `travUpdate` either leaves the actor bookkeeping unchanged or appends
one actor of `actors` whose id was not yet seen. -/
theorem travUpdate_cases (steps : List ProcessStep) (actors : List Actor)
    (stepId : String) (st : TravState) :
    travUpdate steps actors stepId st = (st.actorOrder, st.seenActors)
    ∨ ∃ actor, actor ∈ actors ∧ actor.id ∉ st.seenActors
        ∧ travUpdate steps actors stepId st
            = (st.actorOrder ++ [actor], st.seenActors ++ [actor.id]) := by
  unfold travUpdate
  split
  · rename_i step hfind
    by_cases hseen : step.actorId ∈ st.seenActors
    · rw [if_pos hseen]
      exact Or.inl rfl
    · rw [if_neg hseen]
      split
      · rename_i actor hfind2
        refine Or.inr ⟨actor, List.mem_of_find?_eq_some hfind2, ?_, rfl⟩
        have hbeq := List.find?_some hfind2
        have heq : actor.id = step.actorId := eq_of_beq hbeq
        intro hmem
        exact hseen (heq ▸ hmem)
      · exact Or.inl rfl
  · exact Or.inl rfl

/-- The walk only appends to the actor order, appends exactly the matching
ids to the seen set, and every appended actor comes from `actors`. -/
theorem traverseFlows_append (steps : List ProcessStep) (actors : List Actor)
    (graph : List (String × List String)) (univ : List String) :
    ∀ (pending : List String) (st : TravState), ∃ t : List Actor,
      (traverseFlows steps actors graph univ pending st).actorOrder
          = st.actorOrder ++ t
      ∧ (traverseFlows steps actors graph univ pending st).seenActors
          = st.seenActors ++ t.map (fun a => a.id)
      ∧ (∀ a ∈ t, a ∈ actors) := by
  intro pending st
  induction pending, st using traverseFlows.induct steps actors graph univ with
  | case1 st =>
    exact ⟨[], by simp [traverseFlows_nil]⟩
  | case2 stepId rest st hcond ih =>
    obtain ⟨t, h1, h2, h3⟩ := ih
    exact ⟨t, by rw [traverseFlows_cons_skip _ _ _ _ _ _ _ hcond]; exact h1,
      by rw [traverseFlows_cons_skip _ _ _ _ _ _ _ hcond]; exact h2, h3⟩
  | case3 stepId rest st hcond ih =>
    obtain ⟨t, h1, h2, h3⟩ := ih
    rw [traverseFlows_cons_visit _ _ _ _ _ _ _ hcond]
    rcases travUpdate_cases steps actors stepId st
      with hup | ⟨actor, hactor, hnot, hup⟩
    · rw [hup] at h1 h2 ⊢
      exact ⟨t, h1, h2, h3⟩
    · rw [hup] at h1 h2 ⊢
      refine ⟨actor :: t, ?_, ?_, ?_⟩
      · rw [h1]
        simp
      · rw [h2]
        simp
      · intro a ha
        rcases List.mem_cons.mp ha with h | h
        · exact h ▸ hactor
        · exact h3 a h

/-- The walk preserves distinctness of the seen-actor ids. -/
theorem traverseFlows_seen_nodup (steps : List ProcessStep)
    (actors : List Actor) (graph : List (String × List String))
    (univ : List String) :
    ∀ (pending : List String) (st : TravState), st.seenActors.Nodup →
      (traverseFlows steps actors graph univ pending st).seenActors.Nodup := by
  intro pending st
  induction pending, st using traverseFlows.induct steps actors graph univ with
  | case1 st =>
    intro h
    rw [traverseFlows_nil]
    exact h
  | case2 stepId rest st hcond ih =>
    intro h
    rw [traverseFlows_cons_skip _ _ _ _ _ _ _ hcond]
    exact ih h
  | case3 stepId rest st hcond ih =>
    intro h
    rw [traverseFlows_cons_visit _ _ _ _ _ _ _ hcond]
    rcases travUpdate_cases steps actors stepId st
      with hup | ⟨actor, hactor, hnot, hup⟩
    · rw [hup] at ih ⊢
      exact ih h
    · rw [hup] at ih ⊢
      refine ih ?_
      show (st.seenActors ++ [actor.id]).Nodup
      rw [List.nodup_append]
      refine ⟨h, List.nodup_singleton _, fun a ha hmem => ?_⟩
      have haa : a = actor.id := by simpa using hmem
      exact hnot (haa ▸ ha)

/-- The walk depends on the actor array only through id lookups. -/
theorem traverseFlows_congr_actors (steps : List ProcessStep)
    (actors actors₂ : List Actor) (graph : List (String × List String))
    (univ : List String)
    (hfind : ∀ x, actors.find? (fun a => a.id == x)
        = actors₂.find? (fun a => a.id == x)) :
    ∀ (pending : List String) (st : TravState),
      traverseFlows steps actors graph univ pending st
        = traverseFlows steps actors₂ graph univ pending st := by
  intro pending st
  induction pending, st using traverseFlows.induct steps actors graph univ with
  | case1 st =>
    rw [traverseFlows_nil, traverseFlows_nil]
  | case2 stepId rest st hcond ih =>
    rw [traverseFlows_cons_skip _ _ _ _ _ _ _ hcond,
      traverseFlows_cons_skip _ _ _ _ _ _ _ hcond]
    exact ih
  | case3 stepId rest st hcond ih =>
    rw [traverseFlows_cons_visit _ _ _ _ _ _ _ hcond,
      traverseFlows_cons_visit _ _ _ _ _ _ _ hcond]
    have hupd : travUpdate steps actors₂ stepId st
        = travUpdate steps actors stepId st := by
      unfold travUpdate
      split
      · rename_i step hfindS
        by_cases hseen : step.actorId ∈ st.seenActors
        · rw [if_pos hseen, if_pos hseen]
        · rw [if_neg hseen, if_neg hseen, hfind step.actorId]
      · rfl
    rw [hupd]
    exact ih

/-- Looking an id up in a permuted actor array with distinct ids gives the
same result. -/
theorem find?_eq_of_perm_nodup (as as₂ : List Actor) (hperm : as.Perm as₂)
    (hnodup : (as.map (fun a => a.id)).Nodup) (x : String) :
    as.find? (fun a => a.id == x) = as₂.find? (fun a => a.id == x) := by
  cases h1 : as.find? (fun a => a.id == x) with
  | none =>
    have hnone := List.find?_eq_none.mp h1
    symm
    rw [List.find?_eq_none]
    intro a ha
    exact hnone a (hperm.mem_iff.mpr ha)
  | some a =>
    have ha : a ∈ as := List.mem_of_find?_eq_some h1
    have hpa := List.find?_some h1
    cases h2 : as₂.find? (fun a => a.id == x) with
    | none =>
      exact absurd hpa (List.find?_eq_none.mp h2 a (hperm.mem_iff.mp ha))
    | some b =>
      have hb : b ∈ as := hperm.mem_iff.mpr (List.mem_of_find?_eq_some h2)
      have hpb := List.find?_some h2
      have hab : a = b := List.inj_on_of_nodup_map hnodup ha hb
        (by rw [eq_of_beq hpa, eq_of_beq hpb])
      rw [hab]

/-- Seen-actor ids of the traversal are exactly the ids of the actor order. -/
theorem travResult_seen_eq (ss : List ProcessStep) (as : List Actor)
    (fs : List Flow) :
    (travResult ss as fs).seenActors
      = (travResult ss as fs).actorOrder.map (fun a => a.id) := by
  cases hfind : ss.find? (fun s => s.type == "start") with
  | none =>
    rw [travResult_none ss as fs hfind]
    rfl
  | some startStep =>
    rw [travResult_some ss as fs startStep hfind]
    cases hfind2 : as.find? (fun a => a.id == startStep.actorId) with
    | some A =>
      rw [travInit_some as startStep A hfind2]
      obtain ⟨t, h1, h2, _⟩ := traverseFlows_append ss as (buildFlowGraph fs)
        (startStep.id :: fs.map (fun f => f.to_)) [startStep.id]
        ⟨[A], [A.id], []⟩
      rw [h1, h2]
      simp
    | none =>
      rw [travInit_none as startStep hfind2]
      obtain ⟨t, h1, h2, _⟩ := traverseFlows_append ss as (buildFlowGraph fs)
        (startStep.id :: fs.map (fun f => f.to_)) [startStep.id] ⟨[], [], []⟩
      rw [h1, h2]
      simp

/-- Every actor of the traversal order is an element of the actor array. -/
theorem travResult_mem (ss : List ProcessStep) (as : List Actor)
    (fs : List Flow) :
    ∀ x ∈ (travResult ss as fs).actorOrder, x ∈ as := by
  cases hfind : ss.find? (fun s => s.type == "start") with
  | none =>
    rw [travResult_none ss as fs hfind]
    intro x hx
    cases hx
  | some startStep =>
    rw [travResult_some ss as fs startStep hfind]
    cases hfind2 : as.find? (fun a => a.id == startStep.actorId) with
    | some A =>
      rw [travInit_some as startStep A hfind2]
      obtain ⟨t, h1, _, h3⟩ := traverseFlows_append ss as (buildFlowGraph fs)
        (startStep.id :: fs.map (fun f => f.to_)) [startStep.id]
        ⟨[A], [A.id], []⟩
      rw [h1]
      intro x hx
      rcases List.mem_append.mp hx with h | h
      · have hxA : x = A := by simpa using h
        exact hxA ▸ List.mem_of_find?_eq_some hfind2
      · exact h3 x h
    | none =>
      rw [travInit_none as startStep hfind2]
      obtain ⟨t, h1, _, h3⟩ := traverseFlows_append ss as (buildFlowGraph fs)
        (startStep.id :: fs.map (fun f => f.to_)) [startStep.id] ⟨[], [], []⟩
      rw [h1]
      intro x hx
      exact h3 x (by simpa using hx)

/-- The seen-actor ids of the traversal are distinct. -/
theorem travResult_seen_nodup (ss : List ProcessStep) (as : List Actor)
    (fs : List Flow) : (travResult ss as fs).seenActors.Nodup := by
  cases hfind : ss.find? (fun s => s.type == "start") with
  | none =>
    rw [travResult_none ss as fs hfind]
    exact List.nodup_nil
  | some startStep =>
    rw [travResult_some ss as fs startStep hfind]
    cases hfind2 : as.find? (fun a => a.id == startStep.actorId) with
    | some A =>
      rw [travInit_some as startStep A hfind2]
      exact traverseFlows_seen_nodup _ _ _ _ _ _ (List.nodup_singleton _)
    | none =>
      rw [travInit_none as startStep hfind2]
      exact traverseFlows_seen_nodup _ _ _ _ _ _ List.nodup_nil

/-- When the start step and its actor resolve, that actor heads the
traversal order. -/
theorem travResult_head (ss : List ProcessStep) (as : List Actor)
    (fs : List Flow) (startStep : ProcessStep) (A : Actor)
    (hfind : ss.find? (fun s => s.type == "start") = some startStep)
    (hfind2 : as.find? (fun a => a.id == startStep.actorId) = some A) :
    ∃ t, (travResult ss as fs).actorOrder = A :: t := by
  rw [travResult_some ss as fs startStep hfind,
    travInit_some as startStep A hfind2]
  obtain ⟨t, h1, _, _⟩ := traverseFlows_append ss as (buildFlowGraph fs)
    (startStep.id :: fs.map (fun f => f.to_)) [startStep.id] ⟨[A], [A.id], []⟩
  exact ⟨t, by rw [h1]; rfl⟩

/-- With distinct actor ids the whole actor order has distinct ids. -/
theorem getActorOrderL_nodup (ss : List ProcessStep) (as : List Actor)
    (fs : List Flow) (hnodup : (as.map (fun a => a.id)).Nodup) :
    ((getActorOrderL ss as fs).map (fun a => a.id)).Nodup := by
  unfold getActorOrderL
  rw [List.map_append, List.nodup_append]
  refine ⟨?_, ?_, ?_⟩
  · rw [← travResult_seen_eq]
    exact travResult_seen_nodup ss as fs
  · exact hnodup.sublist (((List.filter_sublist _)).map _)
  · intro idv hid1 hid2
    rw [← travResult_seen_eq] at hid1
    obtain ⟨a, hafil, rfl⟩ := List.mem_map.mp hid2
    have hnot := (List.mem_filter.mp hafil).2
    simp only [decide_eq_true_eq] at hnot
    exact hnot hid1

/-- With distinct actor ids the actor order is a permutation of the actor
array. -/
theorem getActorOrderL_perm (ss : List ProcessStep) (as : List Actor)
    (fs : List Flow) (hnodup : (as.map (fun a => a.id)).Nodup) :
    (getActorOrderL ss as fs).Perm as := by
  have hnd_order : (getActorOrderL ss as fs).Nodup :=
    (getActorOrderL_nodup ss as fs hnodup).of_map _
  have hnd_as : as.Nodup := hnodup.of_map _
  rw [List.perm_ext_iff_of_nodup hnd_order hnd_as]
  intro a
  constructor
  · intro ha
    unfold getActorOrderL at ha
    rcases List.mem_append.mp ha with h | h
    · exact travResult_mem ss as fs a h
    · exact (List.mem_filter.mp h).1
  · intro ha
    unfold getActorOrderL
    rw [List.mem_append]
    by_cases hseen : a.id ∈ (travResult ss as fs).seenActors
    · left
      rw [travResult_seen_eq] at hseen
      obtain ⟨b, hb, hba⟩ := List.mem_map.mp hseen
      have hbeq : b = a := List.inj_on_of_nodup_map hnodup
        (travResult_mem ss as fs b hb) ha hba
      exact hbeq ▸ hb
    · right
      exact List.mem_filter.mpr ⟨ha, by simpa using hseen⟩

/-- Grouping the steps by the actors of a key-distinct actor list that
covers every step actor id partitions the step list. -/
theorem flatMap_filter_perm (as : List Actor) :
    ∀ (ss : List ProcessStep),
    (as.map (fun a => a.id)).Nodup →
    (∀ s ∈ ss, s.actorId ∈ as.map (fun a => a.id)) →
    (as.flatMap (fun a => ss.filter (fun s => s.actorId == a.id))).Perm ss := by
  induction as with
  | nil =>
    intro ss _ hres
    have hnil : ss = [] := by
      cases ss with
      | nil => rfl
      | cons s rest =>
        exact absurd (hres s (List.mem_cons_self _ _)) (by simp)
    rw [hnil]
    rfl
  | cons a rest ih =>
    intro ss hnodup hres
    rw [List.flatMap_cons]
    have hrw : rest.flatMap (fun b => ss.filter (fun s => s.actorId == b.id))
        = rest.flatMap (fun b =>
            (ss.filter (fun s => !(s.actorId == a.id))).filter
              (fun s => s.actorId == b.id)) := by
      rw [List.flatMap_def, List.flatMap_def]
      refine congrArg List.flatten (List.map_congr_left ?_)
      intro b hb
      have hba : b.id ≠ a.id := by
        intro h
        have hane : a.id ∉ rest.map (fun a => a.id) :=
          (List.nodup_cons.mp (by simpa using hnodup)).1
        exact hane (h ▸ List.mem_map_of_mem _ hb)
      rw [List.filter_filter]
      refine (List.filter_congr ?_).symm
      intro s hs
      by_cases hcase : s.actorId = b.id
      · simp [hcase, hba]
      · simp [hcase]
    rw [hrw]
    have hperm2 := ih (ss.filter (fun s => !(s.actorId == a.id)))
      (List.nodup_cons.mp (by simpa using hnodup)).2
      (fun s hs => by
        have hsm := (List.mem_filter.mp hs).1
        have hsne := (List.mem_filter.mp hs).2
        have hres2 := hres s hsm
        simp only [List.map_cons, List.mem_cons] at hres2
        rcases hres2 with h | h
        · exact absurd (by simpa using h) (by simpa using hsne)
        · exact h)
    exact (hperm2.append_left _).trans (List.filter_append_perm _ _)

theorem flatMap_if_eq_filter {α β : Type} (l : List α) (p : α → Bool)
    (f : α → List β) (g : α → List β)
    (hg : ∀ a, g a = if p a then f a else []) :
    l.flatMap g = (l.filter p).flatMap f := by
  induction l with
  | nil => rfl
  | cons a rest ih =>
    rw [List.flatMap_cons, List.filter_cons, hg a]
    by_cases h : p a = true
    · rw [if_pos h, if_pos h, List.flatMap_cons, ih]
    · rw [if_neg h, if_neg h, ih]
      simp

/-- Skipping the empty-lane actors is a filter. -/
theorem buildSwimlanesL_eq_filter (order : List Actor)
    (ss : List ProcessStep) :
    buildSwimlanesL order ss
      = (order.filter (fun a =>
          decide ((ss.filter (fun s => s.actorId == a.id)) ≠ []))).flatMap
            (actorBlock ss) := by
  unfold buildSwimlanesL
  refine flatMap_if_eq_filter order _ (actorBlock ss) _ ?_
  intro a
  by_cases h : (ss.filter (fun s => s.actorId == a.id)) = []
  · simp [h]
  · simp [h, List.length_eq_zero]

/-- C1: for a document with exactly one start step, the actor group blocks
are emitted in the traversal order: the reached actors first (the start
actor leading, and each actor appended at most once, independently of the
declaration order of the actor array), then the never-reached actors in
original array order; actors with no steps produce no block. -/
theorem c1_swimlane_order (d : ProcessSchema) (as : List Actor)
    (ss : List ProcessStep) (fs : List Flow)
    (hA : d.actors = .arr as) (hS : d.steps = .arr ss)
    (hF : d.flows = .arr fs)
    (hstart : (ss.filter (fun s => s.type == "start")).length = 1) :
    buildSwimlanes d = .ok (((getActorOrderL ss as fs).filter
        (fun a =>
          decide ((ss.filter (fun s => s.actorId == a.id)) ≠ []))).flatMap
          (actorBlock ss))
    ∧ (∃ startStep, ss.find? (fun s => s.type == "start") = some startStep
        ∧ startStep.type = "start")
    ∧ getActorOrderL ss as fs
        = (travResult ss as fs).actorOrder
          ++ as.filter
              (fun a => decide (a.id ∉ (travResult ss as fs).seenActors))
    ∧ (∀ (startStep : ProcessStep) (A : Actor),
        ss.find? (fun s => s.type == "start") = some startStep →
        as.find? (fun a => a.id == startStep.actorId) = some A →
        (getActorOrderL ss as fs).head? = some A)
    ∧ (∀ as₂ : List Actor, as.Perm as₂ → (as.map (fun a => a.id)).Nodup →
        (travResult ss as₂ fs).actorOrder = (travResult ss as fs).actorOrder)
    ∧ ((as.map (fun a => a.id)).Nodup →
        ((getActorOrderL ss as fs).map (fun a => a.id)).Nodup) := by
  rcases d with ⟨n, i, A, S, F⟩
  cases hA
  cases hS
  cases hF
  refine ⟨?_, ?_, rfl, ?_, ?_, getActorOrderL_nodup ss as fs⟩
  · rw [show buildSwimlanes ⟨n, i, .arr as, .arr ss, .arr fs⟩
      = Except.ok (buildSwimlanesL (getActorOrderL ss as fs) ss) from rfl]
    rw [buildSwimlanesL_eq_filter]
  · cases hfs : ss.find? (fun s => s.type == "start") with
    | none =>
      exfalso
      have hall := List.find?_eq_none.mp hfs
      have hnil : ss.filter (fun s => s.type == "start") = [] := by
        rw [List.filter_eq_nil_iff]
        exact hall
      rw [hnil] at hstart
      simp at hstart
    | some startStep =>
      have hbeq := List.find?_some hfs
      exact ⟨startStep, rfl, eq_of_beq hbeq⟩
  · intro startStep A h1 h2
    unfold getActorOrderL
    obtain ⟨t, ht⟩ := travResult_head ss as fs startStep A h1 h2
    rw [ht]
    rfl
  · intro as₂ hperm hnodup
    have hfind := fun x => find?_eq_of_perm_nodup as as₂ hperm hnodup x
    cases hfs : ss.find? (fun s => s.type == "start") with
    | none =>
      rw [travResult_none _ _ _ hfs, travResult_none _ _ _ hfs]
    | some startStep =>
      rw [travResult_some _ _ _ _ hfs, travResult_some _ _ _ _ hfs]
      have hinit : travInit as₂ startStep = travInit as startStep := by
        unfold travInit
        rw [← hfind startStep.actorId]
      rw [hinit, ← traverseFlows_congr_actors ss as as₂ _ _ hfind]

/-- Witness for C1: the fixture document (actors declared in reverse
traversal order) has exactly one start step and its swimlane blocks follow
the traversal-filtered actor order. -/
theorem c1_swimlane_order_witness :
    (exSteps.filter (fun s => s.type == "start")).length = 1
    ∧ buildSwimlanes exDoc
        = .ok (((getActorOrderL exSteps exActors exFlows).filter
            (fun a =>
              decide ((exSteps.filter
                (fun s => s.actorId == a.id)) ≠ []))).flatMap
              (actorBlock exSteps)) :=
  ⟨by decide,
    (c1_swimlane_order exDoc exActors exSteps exFlows rfl rfl rfl
      (by decide)).1⟩

/-- C7: every step is emitted as exactly one node statement; the shape is
selected by the step type and the style suffix lists the control tag, then
the risk tag, exactly when the respective collections are non-empty. -/
theorem c7_node_statements (d : ProcessSchema) (as : List Actor)
    (ss : List ProcessStep) (fs : List Flow)
    (hA : d.actors = .arr as) (hS : d.steps = .arr ss)
    (hF : d.flows = .arr fs)
    (hnodup : (as.map (fun a => a.id)).Nodup)
    (hres : ∀ s ∈ ss, s.actorId ∈ as.map (fun a => a.id)) :
    (∀ step : ProcessStep,
      buildNodeDefinition step =
        (if step.type == "start" ∨ step.type == "end" then
            sanitizeId step.id ++ "((" ++ escapeLabel step.label ++ "))"
          else if step.type == "decision" then
            sanitizeId step.id ++ "\x7b" ++ escapeLabel step.label ++ "\x7d"
          else sanitizeId step.id ++ "[\"" ++ escapeLabel step.label ++ "\"]")
        ++ (if step.controls ≠ [] ∧ step.risks ≠ [] then
              ":::controlStyle:riskStyle"
            else if step.controls ≠ [] then ":::controlStyle"
            else if step.risks ≠ [] then ":::riskStyle"
            else ""))
    ∧ ((getActorOrderL ss as fs).flatMap
        (fun a => ss.filter (fun s => s.actorId == a.id))).Perm ss
    ∧ ((getActorOrderL ss as fs).flatMap
        (fun a => (ss.filter (fun s => s.actorId == a.id)).map
          (fun s => "        " ++ buildNodeDefinition s))).Perm
        (ss.map (fun s => "        " ++ buildNodeDefinition s))
    ∧ buildSwimlanes d = .ok (buildSwimlanesL (getActorOrderL ss as fs) ss) := by
  rcases d with ⟨n, i, A, S, F⟩
  cases hA
  cases hS
  cases hF
  have hperm := getActorOrderL_perm ss as fs hnodup
  have hpart := flatMap_filter_perm as ss hnodup hres
  refine ⟨buildNodeDefinition_eq, (hperm.flatMap_right _).trans hpart, ?_, rfl⟩
  rw [← List.map_flatMap]
  exact (((getActorOrderL_perm ss as fs hnodup).flatMap_right _).trans
    hpart).map _

/-- Witness for C7: on the fixture document the rendered steps across all
blocks are a permutation of the step array. -/
theorem c7_node_statements_witness :
    ((getActorOrderL exSteps exActors exFlows).flatMap
        (fun a => exSteps.filter (fun s => s.actorId == a.id))).Perm
      exSteps :=
  (c7_node_statements exDoc exActors exSteps exFlows rfl rfl rfl
    (by decide) (by decide)).2.1

end MermaidGen
